import Mathlib

/-!
Verification development for the voice command interpretation pipeline of the
voice-commander-web repository.

The JavaScript source is shallowly embedded: JS strings are Lean `String`s but
every string operation used by the code (`toLowerCase`, `trim`, `includes`,
`split`, regular-expression tests of the shapes actually occurring) is given an
explicit executable definition on the underlying character list, so that every
definition evaluates by kernel reduction.  JS `Map`s are association lists in
insertion order, JS `Set`s are duplicate-free lists in insertion order, which
is exactly the iteration order JS guarantees.  Floating point confidences are
modelled as rationals (the code only compares them against constants).
-/

namespace VoiceCommander

/-- Character-level lowercasing, mirroring JS `toLowerCase` on the inputs the
game uses (ASCII letters are lowered, Japanese text is untouched). -/
def lowerStr (s : String) : String :=
  String.mk (s.data.map Char.toLower)

/-- JS whitespace test for `trim` (the inputs only ever carry these). -/
def isWsChar (c : Char) : Bool :=
  c = ' ' || c = '\t' || c = '\n' || c = '\r'

/-- JS `String.prototype.trim`. -/
def trimStr (s : String) : String :=
  String.mk (((s.data.dropWhile isWsChar).reverse.dropWhile isWsChar).reverse)

/-- Contiguous-sublist test on character lists (JS `String.prototype.includes`). -/
def isSubList (needle : List Char) : List Char → Bool
  | [] => needle.isEmpty
  | c :: t => needle.isPrefixOf (c :: t) || isSubList needle t

/-- JS `hay.includes(needle)`. -/
def strContains (hay needle : String) : Bool :=
  isSubList needle.data hay.data

/-- Split a character list at every occurrence of a separator character
(JS `String.prototype.split` with a one-character separator). -/
def splitOnChar (sep : Char) : List Char → List (List Char)
  | [] => [[]]
  | c :: t =>
    let r := splitOnChar sep t
    if c = sep then [] :: r
    else
      match r with
      | [] => [[c]]
      | h :: t2 => (c :: h) :: t2

/-- Remove the first occurrence of `pat` from a character list
(JS `String.prototype.replace` with a string pattern and empty replacement). -/
def replaceOnce (pat : List Char) : List Char → List Char
  | [] => []
  | c :: t =>
    if pat.isPrefixOf (c :: t) then (c :: t).drop pat.length
    else c :: replaceOnce pat t

/-- Test of a regular expression of the shape `/a.*b/` (every pattern in the
natural-language tables has this shape, with `b` empty for plain patterns):
some suffix of `s` starts with `a` and contains `b` after it. -/
def seqMatch (a b : List Char) : List Char → Bool
  | [] => a.isPrefixOf ([] : List Char) && isSubList b ([] : List Char)
  | c :: t =>
    (a.isPrefixOf (c :: t) && isSubList b ((c :: t).drop a.length)) || seqMatch a b t

/-- A pattern `/a.*b/` tested against a string (`RegExp.prototype.test`). -/
def rxTest (p : String × String) (s : String) : Bool :=
  seqMatch p.1.data p.2.data s.data

/-- JS `Set.prototype.add`: append if not already present. -/
def setAdd (s : List String) (k : String) : List String :=
  if s.contains k then s else s ++ [k]

/-- JS `Map.prototype.set`: update in place if the key is present, else
append at the end (insertion order preserved). -/
def mapSet {β : Type} (m : List (String × β)) (k : String) (v : β) : List (String × β) :=
  if m.any (fun e => e.1 == k) then
    m.map (fun e => cond (e.1 == k) (k, v) e)
  else m ++ [(k, v)]

/-- JS `new Set(arr)`: deduplicating left fold. -/
def setFromList (l : List String) : List String :=
  l.foldl setAdd []

/-- JS `new Map(entries)`: left fold of `Map.set`. -/
def mapFromEntries {β : Type} (l : List (String × β)) : List (String × β) :=
  l.foldl (fun m e => mapSet m e.1 e.2) []

/-! ## Pattern matcher (src/mic-test.js, AdvancedVoiceRecognition; src/voice.js) -/

/-- The static keyword table `this.commandMap` of `VoiceRecognition`
(src/voice.js), in object-literal insertion order. -/
def commandMap : List (String × String) :=
  [("攻撃", "attack"), ("こうげき", "attack"), ("アタック", "attack"),
   ("たたかう", "attack"), ("戦う", "attack"),
   ("防御", "defend"), ("ぼうぎょ", "defend"), ("ディフェンス", "defend"),
   ("まもる", "defend"), ("守る", "defend"), ("シールド", "defend"),
   ("撤退", "retreat"), ("てったい", "retreat"), ("にげる", "retreat"),
   ("逃げる", "retreat"), ("ひく", "retreat"), ("引く", "retreat"),
   ("状況", "status"), ("じょうきょう", "status"), ("レポート", "status"),
   ("ほうこく", "status"), ("報告", "status")]

/-- The natural-language pattern table of `initNaturalLanguagePatterns`
(src/mic-test.js), in `Map` insertion order; each regex `/a.*b/` (or a plain
`/a/`) is the pair `(a, b)` (`b` empty when absent). -/
def naturalLanguagePatterns : List (String × List (String × String)) :=
  [("attack",
    [("敵", "やっつけ"), ("敵", "倒"), ("敵", "撃破"), ("攻撃", "して"),
     ("やっつけて", ""), ("倒して", ""), ("撃って", ""), ("戦って", ""),
     ("敵", "消して"), ("敵", "排除"), ("敵が", "うざい"), ("敵", "なんとか")]),
   ("defend",
    [("守って", ""), ("防いで", ""), ("シールド", ""), ("バリア", ""),
     ("防衛", "強化"), ("回復", "して"), ("治して", ""), ("直して", ""),
     ("立て直", ""), ("持ちこたえ", ""), ("耐え", "")]),
   ("retreat",
    [("逃げ", ""), ("退避", ""), ("下がって", ""), ("引いて", ""), ("避難", ""),
     ("撤退", "して"), ("危険", "だから"), ("やばい", ""), ("まずい", ""),
     ("無理", ""), ("厳しい", "")]),
   ("status",
    [("どうなって", ""), ("状況", "教えて"), ("今", "どう"), ("何が", "起きて"),
     ("現在", "状況"), ("レポート", ""), ("報告", "して"), ("確認", ""),
     ("チェック", "")]),
   ("combo_attack_defend",
    [("攻撃", "防御"), ("攻撃", "守"), ("やっつけ", "守"), ("撃破", "防御")]),
   ("combo_defend_attack",
    [("防御", "攻撃"), ("守", "攻撃"), ("回復", "攻撃"), ("立て直", "攻撃")])]

/-- `checkLearnedPatterns` (src/mic-test.js:844-852): first learned key whose
lowercase form occurs in the lowercased transcript wins, in map insertion
order. -/
def checkLearnedPatterns (learned : List (String × String)) (transcript : String) :
    Option String :=
  match learned with
  | [] => none
  | (p, c) :: rest =>
    if strContains (lowerStr transcript) (lowerStr p) then some c
    else checkLearnedPatterns rest transcript

/-- The compound-phrase loop of `parseAdvancedCommand`: scan the pattern map
in insertion order, testing only entries whose key starts with `combo_`; on a
match, return the token pair obtained by stripping `combo_` and splitting at
the underscore. -/
def comboScan (table : List (String × List (String × String))) (lower : String) :
    Option (List String) :=
  match table with
  | [] => none
  | (combo, pats) :: rest =>
    if "combo_".data.isPrefixOf combo.data then
      if pats.any (fun p => rxTest p lower) then
        some ((splitOnChar '_' (replaceOnce "combo_".data combo.data)).map String.mk)
      else comboScan rest lower
    else comboScan rest lower

/-- The keyword loop of `parseAdvancedCommand`: accumulate each distinct
command whose keyword occurs in the lowercased transcript, in table order. -/
def keywordScan (cm : List (String × String)) (lower : String) : List String :=
  cm.foldl
    (fun cmds kc =>
      if strContains lower (lowerStr kc.1) && !(cmds.contains kc.2) then cmds ++ [kc.2]
      else cmds)
    []

/-- `parseAdvancedCommand` (src/mic-test.js:675-709): learned patterns first,
then compound patterns, then the keyword table. -/
def parseAdvancedCommand (learned : List (String × String)) (transcript : String) :
    List String :=
  let lower := lowerStr transcript
  match checkLearnedPatterns learned transcript with
  | some c => [c]
  | none =>
    match comboScan naturalLanguagePatterns lower with
    | some pair => pair
    | none => keywordScan commandMap lower

/-- `parseNaturalLanguage` (src/mic-test.js:714-729): first non-combo pattern
that tests positive on the lowercased transcript, in table order. -/
def parseNaturalLanguage (transcript : String) : List (String × List (String × String)) → Option String
  | [] => none
  | (command, pats) :: rest =>
    if "combo_".data.isPrefixOf command.data then parseNaturalLanguage transcript rest
    else if pats.any (fun p => rxTest p (lowerStr transcript)) then some command
    else parseNaturalLanguage transcript rest

/-- `parseCommand` of the base `VoiceRecognition` class (src/voice.js:193-209):
exact key hit on the raw transcript first, then the first keyword occurring in
the lowercased transcript. -/
def parseCommandScan : List (String × String) → String → Option String
  | [], _ => none
  | (kw, c) :: rest, lower =>
    if strContains lower (lowerStr kw) then some c else parseCommandScan rest lower

/-- `VoiceRecognition.parseCommand` (src/voice.js:193-209). -/
def parseCommand (transcript : String) : Option String :=
  match List.lookup transcript commandMap with
  | some c => some c
  | none => parseCommandScan commandMap (lowerStr transcript)

/-! ## Learning store (src/mic-test.js, AdvancedVoiceRecognition) -/

/-- The per-user learning state: `this.userPatterns` (command, phrase set) and
`this.learnedCommands` (phrase, command), both in insertion order. -/
structure LearningState where
  userPatterns : List (String × List String)
  learnedCommands : List (String × String)
deriving DecidableEq

/-- `learnSuccessfulPattern` (src/mic-test.js:857-875): normalize the
transcript, add it to the first command's candidate set, and copy it into the
learned map once that set holds at least 3 phrases. -/
def learnSuccessfulPattern (st : LearningState) (transcript : String)
    (commands : List String) : LearningState :=
  match commands with
  | [] => st
  | command :: _ =>
    let key := trimStr (lowerStr transcript)
    let pats0 := (List.lookup command st.userPatterns).getD []
    let pats := setAdd pats0 key
    let up := mapSet st.userPatterns command pats
    let lc :=
      if 3 ≤ pats.length then mapSet st.learnedCommands key command
      else st.learnedCommands
    ⟨up, lc⟩

/-- `addCorrectionPattern` (src/mic-test.js:1046-1056): delete the normalized
old text from every command's candidate set, then record the corrected text
under the correct command (`addLearningPattern` delegates to
`learnSuccessfulPattern`). -/
def addCorrectionPattern (st : LearningState) (originalText _wrongCommand : String)
    (correctedText correctCommand : String) : LearningState :=
  let oldKey := trimStr (lowerStr originalText)
  let up := st.userPatterns.map (fun e => (e.1, e.2.filter (fun p => !(p == oldKey))))
  learnSuccessfulPattern ⟨up, st.learnedCommands⟩ correctedText [correctCommand]

/-- The record written by `saveUserLearning` (src/mic-test.js:950-965):
candidate sets and learned patterns as arrays of entries. -/
structure LearningData where
  userPatterns : List (String × List String)
  learnedCommands : List (String × String)
deriving DecidableEq

/-- `saveUserLearning` (src/mic-test.js:950-965): serialize both maps
(`Array.from` of map entries, sets flattened to arrays). -/
def saveUserLearning (st : LearningState) : LearningData :=
  { userPatterns := st.userPatterns.map (fun e => (e.1, e.2)),
    learnedCommands := st.learnedCommands }

/-- `loadUserLearning` (src/mic-test.js:970-994): rebuild the maps with
`new Map(...)` and each candidate set with `new Set(...)`. -/
def loadUserLearning (d : LearningData) : LearningState :=
  { userPatterns := mapFromEntries (d.userPatterns.map (fun e => (e.1, setFromList e.2))),
    learnedCommands := mapFromEntries d.learnedCommands }

/-- Well-formedness every JS-reachable learning state has: map keys are
unique and each candidate set is duplicate-free. -/
def WFLearning (st : LearningState) : Prop :=
  (st.userPatterns.map Prod.fst).Nodup ∧
  (∀ e ∈ st.userPatterns, e.2.Nodup) ∧
  (st.learnedCommands.map Prod.fst).Nodup

instance (st : LearningState) : Decidable (WFLearning st) := by
  unfold WFLearning; infer_instance

/-! ## Confirmation system (src/voice-recognition-engine.js, ConfirmationSystem) -/

/-- `this.pendingConfirmation` (callbacks elided; they are replayed as emitted
events below). -/
structure Pending where
  command : String
  originalText : String
  confidence : ℚ
deriving DecidableEq

/-- The mutable state of a `ConfirmationSystem` instance: the single pending
confirmation and whether `this.confirmationTimeout` holds a live timer. -/
structure CState where
  pending : Option Pending
  timeoutSet : Bool
deriving DecidableEq

/-- Observable effects of a confirmation step: the `onConfirmed` / `onRejected`
callbacks, text-to-speech output, sound effects, and the learning calls made on
the wired voice-recognition object. -/
inductive CEvent where
  | confirmedCb (command text : String)
  | rejectedCb (text reason : String)
  | speak (text : String)
  | sound (name : String)
  | learn (text command : String)
  | correct (oldText oldCommand newText newCommand : String)
deriving DecidableEq

/-- True exactly on `onRejected` callback events. -/
def isRejectedEvent : CEvent → Bool
  | .rejectedCb _ _ => true
  | _ => false

/-- Number of `onRejected` invocations in an event trace. -/
def countRejected (l : List CEvent) : Nat :=
  (l.filter isRejectedEvent).length

/-- `clearPendingConfirmation` (src/voice-recognition-engine.js:501-509):
cancel the timer and drop the pending record. -/
def clearPendingConfirmation (_st : CState) : CState :=
  ⟨none, false⟩

/-- `requestConfirmation` (src/voice-recognition-engine.js:194-221): clear any
prior confirmation, record the new one, prompt, and arm the 10s timer. -/
def requestConfirmation (st : CState) (command originalText : String)
    (confidence : ℚ) : CState × List CEvent :=
  let cleared := clearPendingConfirmation st
  ({ cleared with pending := some ⟨command, originalText, confidence⟩, timeoutSet := true },
   [.speak (command ++ "、でよろしいですか？")])

/-- `confirmCommand` (src/voice-recognition-engine.js:266-293): run the
confirmation callback, play a sound, record the phrase as learned, clear. -/
def confirmCommand (st : CState) : CState × List CEvent :=
  match st.pending with
  | none => (st, [])
  | some p =>
    (⟨none, false⟩,
     [.confirmedCb p.command p.originalText, .sound "notification",
      .learn p.originalText p.command])

/-- `rejectCommand` (src/voice-recognition-engine.js:298-318): run the
rejection callback, play a sound, clear. -/
def rejectCommand (st : CState) : CState × List CEvent :=
  match st.pending with
  | none => (st, [])
  | some p =>
    (⟨none, false⟩, [.rejectedCb p.originalText "認識が間違っていました", .sound "error"])

/-- `replaceCommand` (src/voice-recognition-engine.js:323-348): execute the new
command via the confirmation callback, record the correction, clear. -/
def replaceCommand (st : CState) (newCommand newText : String) : CState × List CEvent :=
  match st.pending with
  | none => (st, [])
  | some p =>
    (⟨none, false⟩,
     [.confirmedCb newCommand newText,
      .correct p.originalText p.command newText newCommand, .sound "success"])

/-- `retryCommand` (src/voice-recognition-engine.js:353-365): speak a
please-repeat prompt and clear; no callback runs and nothing is learned. -/
def retryCommand (st : CState) : CState × List CEvent :=
  match st.pending with
  | none => (st, [])
  | some _ => (⟨none, false⟩, [.speak "もう一度お聞かせください"])

/-- `handleUnknownResponse` (src/voice-recognition-engine.js:370-384):
re-prompt and reset the timeout, keeping the confirmation pending. -/
def handleUnknownResponse (st : CState) : CState × List CEvent :=
  (⟨st.pending, st.timeoutSet⟩,
   [.speak "「はい」「いいえ」でお答えいただくか、正しいコマンドをお聞かせください",
    .sound "notification"])

/-- `handleConfirmationTimeout` (src/voice-recognition-engine.js:389-398):
guard on a live pending record, then reject and announce the timeout. -/
def handleConfirmationTimeout (st : CState) : CState × List CEvent :=
  match st.pending with
  | none => (st, [])
  | some _ =>
    let r := rejectCommand st
    (r.1, r.2 ++ [.speak "確認がタイムアウトしました"])

/-- The `yes` alternatives of `this.confirmationPhrases` (src/voice-recognition-engine.js:157). -/
def yesPhrases : List String :=
  ["はい", "そうです", "正解", "オーケー", "OK", "うん", "そう", "その通り"]

/-- The `no` alternatives of `this.confirmationPhrases` (src/voice-recognition-engine.js:158). -/
def noPhrases : List String :=
  ["いいえ", "違います", "ちがう", "だめ", "ノー", "NO", "違う"]

/-- The `retry` alternatives of `this.confirmationPhrases` (src/voice-recognition-engine.js:159). -/
def retryPhrases : List String :=
  ["もう一度", "やり直し", "リトライ", "再度"]

/-- Test of an anchored case-insensitive alternation `/^(a|b|...)/i` against an
already-lowercased string. -/
def startsWithAny (alts : List String) (s : String) : Bool :=
  alts.any (fun a => (lowerStr a).data.isPrefixOf s.data)

/-- A JS runtime exception escaping the subsystem. -/
inductive JsError where
  | typeError (msg : String)
deriving DecidableEq

/-- `handleConfirmationResponse` (src/voice-recognition-engine.js:226-261).
`pc` is the `parseCommand` member looked up on the wired `this.voiceRecognition`
object: `AdvancedVoiceRecognition` inherits one from `VoiceRecognition`, while
`UnifiedVoiceRecognition` has none, so the lookup yields `none` and the call
site raises a `TypeError`. -/
def handleConfirmationResponse (pc : Option (String → Option String))
    (st : CState) (responseText : String) :
    Except JsError (Bool × CState × List CEvent) :=
  match st.pending with
  | none => .ok (false, st, [])
  | some _ =>
    let response := lowerStr responseText
    if startsWithAny yesPhrases response then
      let r := confirmCommand st
      .ok (true, r.1, r.2)
    else if startsWithAny noPhrases response then
      let r := rejectCommand st
      .ok (true, r.1, r.2)
    else if startsWithAny retryPhrases response then
      let r := retryCommand st
      .ok (true, r.1, r.2)
    else
      match pc with
      | none => .error (.typeError "this.voiceRecognition.parseCommand is not a function")
      | some parse =>
        match parse response with
        | some newCommand =>
          if newCommand == "unknown" then
            let r := handleUnknownResponse st
            .ok (false, r.1, r.2)
          else
            let r := replaceCommand st newCommand responseText
            .ok (true, r.1, r.2)
        | none =>
          let r := handleUnknownResponse st
          .ok (false, r.1, r.2)

/-- `shouldConfirm` thresholds: `this.confidenceThreshold` default. -/
def confidenceThreshold : ℚ := 6 / 10

/-- The `criticalCommands` array of `shouldConfirm`. -/
def criticalCommands : List String := ["撤退", "retreat"]

/-- The high-stakes test of `shouldConfirm`: some critical keyword occurs in
the lowercased command. -/
def isCriticalCommand (command : String) : Bool :=
  criticalCommands.any (fun cmd => strContains (lowerStr command) (lowerStr cmd))

/-- `shouldConfirm` (src/voice-recognition-engine.js:171-189). -/
def shouldConfirm (command originalText : String) (confidence : ℚ) : Bool :=
  if confidence < confidenceThreshold then true
  else if isCriticalCommand command then decide (confidence < 8 / 10)
  else if 3 < (splitOnChar ' ' originalText.data).length ∧ confidence < 75 / 100 then true
  else false

/-- The confirmation threshold the spec assigns to a command and transcript:
0.8 for high-stakes commands, 0.75 for transcripts of more than 3
space-separated tokens, 0.6 otherwise. -/
def applicableThreshold (command originalText : String) : ℚ :=
  if isCriticalCommand command then 8 / 10
  else if 3 < (splitOnChar ' ' originalText.data).length then 75 / 100
  else confidenceThreshold

/-! ## Command sequencer (src/mic-test.js, queueCommands / processCommandQueue) -/

/-- `processCommandQueue` (src/mic-test.js:760-781) as a dispatch schedule:
each queued command is executed (`outcome` is whatever executing it reports —
the loop never reads it), and the loop waits `delay` ms before the next shift
whenever the queue is still non-empty. -/
def processQueueFrom (delay : Nat) (outcome : String → Bool) :
    Nat → List String → List (String × Nat)
  | _, [] => []
  | now, c :: rest =>
    let _ := outcome c
    (c, now) :: processQueueFrom delay outcome (if rest.isEmpty then now else now + delay) rest

/-! ## Whisper engine transcription queue (src/whisper-wasm-engine.js) -/

/-- The relevant state of a `WhisperWASMEngine` instance:
`isListening`, `isProcessing`, `this.processingQueue`, the transcription call
currently in flight, and the finished transcriptions in completion order.
Utterances are identified by numbers. -/
structure WEngine where
  isListening : Bool
  isProcessing : Bool
  processingQueue : List Nat
  inFlight : List Nat
  transcribed : List Nat
deriving DecidableEq

/-- Events driving the engine: an utterance segmentation ends
(`onSpeechEnd` → `processAudioData`), or the awaited transcription call
returns (resuming the `processQueuedAudio` loop). -/
inductive WEvent where
  | speechEnd (u : Nat)
  | transcribeDone
deriving DecidableEq

/-- One engine step. `processAudioData` (src/whisper-wasm-engine.js:355-371)
returns immediately when not listening or when a transcription is already in
progress; otherwise it pushes the utterance and `processQueuedAudio`
(src/whisper-wasm-engine.js:376-393) sets `isProcessing` and starts
transcribing the head of the queue.  On completion the loop shifts the next
item or resets `isProcessing`. -/
def wstep (st : WEngine) : WEvent → WEngine
  | .speechEnd u =>
    if !st.isListening || st.isProcessing then st
    else
      match st.processingQueue ++ [u] with
      | [] => st
      | v :: rest =>
        { st with isProcessing := true, processingQueue := rest,
                  inFlight := st.inFlight ++ [v] }
  | .transcribeDone =>
    match st.inFlight with
    | [] => st
    | v :: _ =>
      match st.processingQueue with
      | [] =>
        { st with isProcessing := false, inFlight := [],
                  transcribed := st.transcribed ++ [v] }
      | w :: rest =>
        { st with processingQueue := rest, inFlight := [w],
                  transcribed := st.transcribed ++ [v] }

/-- A listening engine with nothing queued or in flight. -/
def winit : WEngine :=
  ⟨true, false, [], [], []⟩

/-- Run a sequence of events. -/
def wrun (st : WEngine) (es : List WEvent) : WEngine :=
  es.foldl wstep st

/-- Invariant: at most one transcription in flight, and the idle engine has an
empty queue. -/
def WInv (st : WEngine) : Prop :=
  st.inFlight.length ≤ 1 ∧
  (st.isProcessing = false → st.inFlight = [] ∧ st.processingQueue = [])

instance (st : WEngine) : Decidable (WInv st) := by
  unfold WInv; infer_instance

/-! ## Helper lemmas -/

theorem checkLearnedPatterns_eq_find (learned : List (String × String)) (t : String) :
    checkLearnedPatterns learned t
      = (learned.find? (fun e => strContains (lowerStr t) (lowerStr e.1))).map Prod.snd := by
  induction learned with
  | nil => rfl
  | cons e rest ih =>
    obtain ⟨p, c⟩ := e
    by_cases h : strContains (lowerStr t) (lowerStr p) = true
    · simp [checkLearnedPatterns, List.find?, h]
    · simp only [Bool.not_eq_true] at h
      simp [checkLearnedPatterns, List.find?, h, ih]

theorem mem_setAdd {s : List String} {k p : String} :
    p ∈ setAdd s k ↔ p ∈ s ∨ p = k := by
  unfold setAdd
  by_cases h : s.contains k = true
  · have hk : k ∈ s := by simpa using h
    simp only [h, if_true]
    constructor
    · exact Or.inl
    · rintro (hp | rfl)
      · exact hp
      · exact hk
  · simp only [h]
    simp [List.mem_append]

theorem setAdd_not_mem {s : List String} {k : String} (h : ¬ k ∈ s) :
    setAdd s k = s ++ [k] := by
  have hc : s.contains k = false := by simpa using h
  unfold setAdd
  rw [hc]
  simp

theorem foldl_setAdd (l : List String) :
    ∀ acc : List String, l.Nodup → (∀ x ∈ l, ¬ x ∈ acc) → l.foldl setAdd acc = acc ++ l := by
  induction l with
  | nil => intro acc _ _; simp
  | cons x t ih =>
    intro acc hnd hdisj
    rw [List.foldl_cons, setAdd_not_mem (hdisj x (by simp))]
    rw [ih (acc ++ [x]) hnd.of_cons]
    · simp
    · intro y hy hmem
      rcases List.mem_append.mp hmem with h1 | h1
      · exact hdisj y (by simp [hy]) h1
      · have : y = x := by simpa using h1
        subst this
        exact (List.nodup_cons.mp hnd).1 hy

theorem setFromList_nodup {l : List String} (h : l.Nodup) : setFromList l = l := by
  simpa [setFromList] using foldl_setAdd l [] h (by simp)

theorem mapSet_not_mem_keys {β : Type} {m : List (String × β)} {k : String} {v : β}
    (h : ∀ e ∈ m, e.1 ≠ k) : mapSet m k v = m ++ [(k, v)] := by
  have ha : m.any (fun e => e.1 == k) = false := by
    simp [List.any_eq_false]
    intro a b hab
    exact h (a, b) hab
  simp [mapSet, ha]

theorem foldl_mapSet {β : Type} (l : List (String × β)) :
    ∀ m : List (String × β), (l.map Prod.fst).Nodup →
      (∀ e ∈ l, ∀ e2 ∈ m, e2.1 ≠ e.1) →
      l.foldl (fun m e => mapSet m e.1 e.2) m = m ++ l := by
  induction l with
  | nil => intro m _ _; simp
  | cons x t ih =>
    intro m hnd hdisj
    have hnd2 : x.1 ∉ t.map Prod.fst ∧ (t.map Prod.fst).Nodup :=
      List.nodup_cons.mp (by simpa using hnd)
    rw [List.foldl_cons, mapSet_not_mem_keys (fun e he => hdisj x (by simp) e he)]
    rw [ih (m ++ [(x.1, x.2)]) hnd2.2]
    · simp
    · intro e he e2 he2
      rcases List.mem_append.mp he2 with h1 | h1
      · exact hdisj e (by simp [he]) e2 h1
      · have : e2 = (x.1, x.2) := by simpa using h1
        subst this
        intro heq
        exact hnd2.1 (by simpa [← heq] using List.mem_map_of_mem Prod.fst he)

theorem mapFromEntries_nodup {β : Type} {l : List (String × β)}
    (h : (l.map Prod.fst).Nodup) : mapFromEntries l = l := by
  simpa [mapFromEntries] using foldl_mapSet l [] h (by simp)

theorem lookup_map_val {β γ : Type} (f : β → γ) (m : List (String × β)) (c : String) :
    List.lookup c (m.map (fun e => (e.1, f e.2))) = (List.lookup c m).map f := by
  induction m with
  | nil => rfl
  | cons e t ih =>
    by_cases h : (c == e.1) = true
    · simp [List.lookup, h]
    · simp only [Bool.not_eq_true] at h
      simp [List.lookup, h, ih]

theorem lookup_map_upd {β : Type} (m : List (String × β)) (k : String) (v : β) (c : String)
    (hck : c ≠ k) :
    List.lookup c (m.map (fun e => cond (e.1 == k) (k, v) e)) = List.lookup c m := by
  induction m with
  | nil => rfl
  | cons e t ih =>
    obtain ⟨a, b⟩ := e
    by_cases h : a = k
    · subst h
      simp [List.lookup, ih, show (c == a) = false by simp [hck]]
    · by_cases hc : c = a
      · subst hc
        simp [List.lookup, show (c == k) = false by simp [h]]
      · simp [List.lookup, ih, show (a == k) = false by simp [h],
              show (c == a) = false by simp [hc]]

theorem lookup_mapSet_ne {β : Type} (m : List (String × β)) {k c : String} (v : β)
    (h : c ≠ k) : List.lookup c (mapSet m k v) = List.lookup c m := by
  unfold mapSet
  by_cases ha : m.any (fun e => e.1 == k) = true
  · simp only [ha, if_true]
    exact lookup_map_upd m k v c h
  · simp only [ha]
    simp only [Bool.not_eq_true] at ha
    induction m with
    | nil => simp [List.lookup, show (c == k) = false by simp [h]]
    | cons e t ih =>
      by_cases hc : (c == e.1) = true
      · simp [List.lookup, hc]
      · simp only [Bool.not_eq_true] at hc
        simp only [List.cons_append]
        simp only [List.lookup, hc]
        refine ih ?_
        simp only [List.any_cons, Bool.or_eq_false_iff] at ha
        exact ha.2

theorem lookup_map_upd_self {β : Type} (m : List (String × β)) (k : String) (v : β)
    (hm : m.any (fun e => e.1 == k) = true) :
    List.lookup k (m.map (fun e => cond (e.1 == k) (k, v) e)) = some v := by
  induction m with
  | nil => simp at hm
  | cons e t ih =>
    obtain ⟨a, b⟩ := e
    by_cases h : a = k
    · subst h
      simp [List.lookup]
    · have ha : (a == k) = false := by simp [h]
      have hk : (k == a) = false := by simp [Ne.symm h]
      simp only [List.any_cons, ha, Bool.false_or] at hm
      simp [List.lookup, ha, hk, ih hm]

theorem lookup_mapSet_self {β : Type} (m : List (String × β)) (k : String) (v : β) :
    List.lookup k (mapSet m k v) = some v := by
  unfold mapSet
  by_cases ha : m.any (fun e => e.1 == k) = true
  · simp only [ha, if_true]
    exact lookup_map_upd_self m k v ha
  · simp only [ha]
    simp only [Bool.not_eq_true] at ha
    induction m with
    | nil => simp [List.lookup]
    | cons e t ih =>
      simp only [List.any_cons, Bool.or_eq_false_iff] at ha
      have : (k == e.1) = false := by
        have : e.1 ≠ k := by simpa using ha.1
        simp [Ne.symm this]
      simp only [List.cons_append, List.lookup, this]
      exact ih ha.2

theorem winv_step (st : WEngine) (e : WEvent) (h : WInv st) : WInv (wstep st e) := by
  obtain ⟨h1, h2⟩ := h
  cases e with
  | speechEnd u =>
    cases hl : st.isListening with
    | false => simpa [wstep, hl] using ⟨h1, h2⟩
    | true =>
      cases hp : st.isProcessing with
      | true => simpa [wstep, hl, hp] using ⟨h1, h2⟩
      | false =>
        obtain ⟨hf, hq⟩ := h2 hp
        simp [wstep, hl, hp, hq, hf, WInv]
  | transcribeDone =>
    match hf : st.inFlight with
    | [] => simpa [wstep, hf] using ⟨h1, h2⟩
    | v :: rest =>
      match hq : st.processingQueue with
      | [] => simp [wstep, hf, hq, WInv]
      | w :: qrest =>
        refine ⟨by simp [wstep, hf, hq], ?_⟩
        intro hproc
        exfalso
        have := (h2 (by simpa [wstep, hf, hq] using hproc)).1
        rw [hf] at this
        exact List.cons_ne_nil v rest this

theorem winv_run (es : List WEvent) : WInv (wrun winit es) := by
  have h : ∀ st : WEngine, WInv st → WInv (wrun st es) := by
    induction es with
    | nil => intro st h; exact h
    | cons e t ih =>
      intro st h
      exact ih (wstep st e) (winv_step st e h)
  exact h winit (by decide)

/-! ## Claim theorems -/

/-- Claim C1 (amended): when some learned key occurs (case-insensitively) in
the transcript, `parseAdvancedCommand` returns exactly the one-element list of
the command bound to the FIRST such key in map insertion order, regardless of
any other keyword or compound content of the transcript (and of confidence,
which the matcher never reads). -/
theorem parseAdvancedCommand_first_learned (learned : List (String × String))
    (t k c : String)
    (h : learned.find? (fun e => strContains (lowerStr t) (lowerStr e.1)) = some (k, c)) :
    parseAdvancedCommand learned t = [c] := by
  unfold parseAdvancedCommand
  rw [checkLearnedPatterns_eq_find, h]
  rfl

/-- Witness for the amended C1 theorem at a concrete learned map and
transcript. -/
theorem parseAdvancedCommand_first_learned_witness :
    List.find? (fun e => strContains (lowerStr "あおい どうぞ") (lowerStr e.1))
        [("あおい", "defend")] = some ("あおい", "defend") ∧
    parseAdvancedCommand [("あおい", "defend")] "あおい どうぞ" = ["defend"] :=
  ⟨by decide, parseAdvancedCommand_first_learned [("あおい", "defend")] "あおい どうぞ"
      "あおい" "defend" (by decide)⟩

/-- Counterexample to claim C1 as stated: the map binds the key "あおい" to
`defend` and the transcript contains it, yet the matcher returns `[attack]`
because the earlier key "きいろ" also matches — so the matcher does NOT return
the command of every contained key. -/
theorem parseAdvancedCommand_not_every_learned_key :
    strContains (lowerStr "きいろ と あおい") (lowerStr "あおい") = true ∧
    parseAdvancedCommand [("きいろ", "attack"), ("あおい", "defend")] "きいろ と あおい"
      = ["attack"] ∧
    parseAdvancedCommand [("きいろ", "attack"), ("あおい", "defend")] "きいろ と あおい"
      ≠ ["defend"] :=
  ⟨by decide, by decide, by decide⟩

/-- Claim C2 (amended): recording the same (transcript, command) pair after
the first time changes nothing at all — the candidate set already contains the
normalized phrase — so 3 (or 4, or any number of) identical recordings from
the empty state leave exactly one candidate phrase and NEVER promote the
phrase into the Learned Pattern map; in particular the 4th identical recording
is a no-op on the Learned Pattern map. -/
theorem learnSuccessfulPattern_same_pair (t c : String) :
    learnSuccessfulPattern (learnSuccessfulPattern ⟨[], []⟩ t [c]) t [c]
      = learnSuccessfulPattern ⟨[], []⟩ t [c] ∧
    (learnSuccessfulPattern ⟨[], []⟩ t [c]).userPatterns
      = [(c, [trimStr (lowerStr t)])] ∧
    (learnSuccessfulPattern ⟨[], []⟩ t [c]).learnedCommands = [] := by
  refine ⟨?_, rfl, rfl⟩
  show learnSuccessfulPattern ⟨[(c, [trimStr (lowerStr t)])], []⟩ t [c]
      = ⟨[(c, [trimStr (lowerStr t)])], []⟩
  unfold learnSuccessfulPattern
  simp [List.lookup, setAdd, mapSet]

/-- Counterexample to claim C2 as stated: recording the identical pair
("とつげき", attack) three times starting from the empty state leaves the
Learned Pattern map empty — the phrase is never promoted, because the
candidate Set collapses identical recordings to one element. -/
theorem three_identical_recordings_never_promote :
    (learnSuccessfulPattern
        (learnSuccessfulPattern
          (learnSuccessfulPattern ⟨[], []⟩ "とつげき" ["attack"])
          "とつげき" ["attack"])
        "とつげき" ["attack"]).learnedCommands = [] := by
  decide

/-- Claim C3: `shouldConfirm` returns true exactly when the confidence is
strictly below the applicable threshold (0.8 for the high-stakes retreat
command, else 0.75 for transcripts of more than 3 space-separated tokens, else
the 0.6 default) — so confidence exactly at the threshold never requires
confirmation, and any confidence strictly below it always does. -/
theorem shouldConfirm_iff_strictly_below (command originalText : String)
    (confidence : ℚ) :
    shouldConfirm command originalText confidence
      = decide (confidence < applicableThreshold command originalText) := by
  unfold shouldConfirm applicableThreshold
  cases hcrit : isCriticalCommand command with
  | true =>
    by_cases h1 : confidence < confidenceThreshold
    · have h2 : confidence < 8 / 10 := h1.trans (by norm_num [confidenceThreshold])
      simp [h1, h2]
    · simp [h1]
  | false =>
    by_cases hlen : 3 < (splitOnChar ' ' originalText.data).length
    · by_cases h1 : confidence < confidenceThreshold
      · have h2 : confidence < 75 / 100 := h1.trans (by norm_num [confidenceThreshold])
        simp [h1, h2, hlen]
      · by_cases h2 : confidence < 75 / 100
        · simp [h1, h2, hlen]
        · simp [h1, h2, hlen]
    · by_cases h1 : confidence < confidenceThreshold
      · simp [h1, hlen]
      · simp [h1, hlen]

/-- Claim C9: the transcript 「攻撃してから防御」 is matched by the
compound-phrase check to `[attack, defend]`, and the command queue dispatches
`attack` at once and `defend` after the fixed 1000ms delay, in order; the
schedule never reads the outcome of executing a command, so the second
dispatch is unconditional. -/
theorem compound_attack_then_defend :
    parseAdvancedCommand [] "攻撃してから防御" = ["attack", "defend"] ∧
    processQueueFrom 1000 (fun _ => true) 0 ["attack", "defend"]
      = [("attack", 0), ("defend", 1000)] ∧
    (∀ o1 o2 : String → Bool,
      processQueueFrom 1000 o1 0 ["attack", "defend"]
        = processQueueFrom 1000 o2 0 ["attack", "defend"]) :=
  ⟨by decide, by decide, fun _ _ => rfl⟩

/-- Claim C4: a timeout firing on a live Pending Confirmation invokes the
rejection callback exactly once and fully clears the state (pending dropped,
timer cancelled), so a second timeout is a pure no-op; and every manual
terminal resolution (confirmed, rejected, replaced, retried) cancels the
timeout timer, after which a stale timeout firing changes no state and invokes
no callback. -/
theorem confirmationTimeout_once_and_cancelled (st : CState) (p : Pending)
    (hp : st.pending = some p) :
    countRejected (handleConfirmationTimeout st).2 = 1 ∧
    (handleConfirmationTimeout st).1 = ⟨none, false⟩ ∧
    handleConfirmationTimeout (handleConfirmationTimeout st).1 = (⟨none, false⟩, []) ∧
    (confirmCommand st).1.timeoutSet = false ∧
    (rejectCommand st).1.timeoutSet = false ∧
    (retryCommand st).1.timeoutSet = false ∧
    (∀ nc nt : String, (replaceCommand st nc nt).1.timeoutSet = false) ∧
    handleConfirmationTimeout (confirmCommand st).1 = ((confirmCommand st).1, []) ∧
    handleConfirmationTimeout (rejectCommand st).1 = ((rejectCommand st).1, []) ∧
    handleConfirmationTimeout (retryCommand st).1 = ((retryCommand st).1, []) ∧
    (∀ nc nt : String,
      handleConfirmationTimeout (replaceCommand st nc nt).1
        = ((replaceCommand st nc nt).1, [])) := by
  simp [handleConfirmationTimeout, rejectCommand, confirmCommand, retryCommand,
        replaceCommand, countRejected, isRejectedEvent, hp]

/-- Witness for the C4 theorem on a concrete pending confirmation. -/
theorem confirmationTimeout_once_and_cancelled_witness :
    countRejected (handleConfirmationTimeout ⟨some ⟨"attack", "こうげき", 0⟩, true⟩).2 = 1 ∧
    handleConfirmationTimeout
        (handleConfirmationTimeout ⟨some ⟨"attack", "こうげき", 0⟩, true⟩).1
      = (⟨none, false⟩, []) :=
  ⟨(confirmationTimeout_once_and_cancelled ⟨some ⟨"attack", "こうげき", 0⟩, true⟩
      ⟨"attack", "こうげき", 0⟩ rfl).1,
   (confirmationTimeout_once_and_cancelled ⟨some ⟨"attack", "こうげき", 0⟩, true⟩
      ⟨"attack", "こうげき", 0⟩ rfl).2.2.1⟩

/-- Claim C5 evaluated at the failing input: on the `UnifiedVoiceRecognition`
pipeline the wired voice-recognition object has no `parseCommand` member, so a
pending confirmation answered with a transcript matching none of the
yes/no/retry patterns makes `handleConfirmationResponse` raise an uncaught
`TypeError` at the reparse call, instead of replacing or re-prompting; the
same input on the `AdvancedVoiceRecognition` pipeline (whose base class
provides `parseCommand`) stays pending and re-prompts without throwing. -/
theorem handleConfirmationResponse_unified_throws :
    handleConfirmationResponse none ⟨some ⟨"attack", "こうげきしろ", 0⟩, true⟩ "こんにちは"
      = .error (.typeError "this.voiceRecognition.parseCommand is not a function") ∧
    handleConfirmationResponse (some parseCommand)
        ⟨some ⟨"attack", "こうげきしろ", 0⟩, true⟩ "こんにちは"
      = .ok (false, ⟨some ⟨"attack", "こうげきしろ", 0⟩, true⟩,
          [.speak "「はい」「いいえ」でお答えいただくか、正しいコマンドをお聞かせください",
           .sound "notification"]) :=
  ⟨rfl, rfl⟩

/-- Claim C6 (amended): a retry response on a pending confirmation clears the
confirmation and emits only the please-repeat prompt — no command is executed,
nothing is learned, and NO callback is invoked: in particular the rejection
callback does not run. -/
theorem retryResponse_clears_without_callbacks
    (pc : Option (String → Option String)) (st : CState) (p : Pending) (resp : String)
    (hp : st.pending = some p)
    (hyes : startsWithAny yesPhrases (lowerStr resp) = false)
    (hno : startsWithAny noPhrases (lowerStr resp) = false)
    (hretry : startsWithAny retryPhrases (lowerStr resp) = true) :
    handleConfirmationResponse pc st resp
      = .ok (true, ⟨none, false⟩, [.speak "もう一度お聞かせください"]) ∧
    countRejected [CEvent.speak "もう一度お聞かせください"] = 0 := by
  refine ⟨?_, rfl⟩
  simp [handleConfirmationResponse, hp, hyes, hno, hretry, retryCommand]

/-- Witness for the amended C6 theorem with the response 「もう一度」. -/
theorem retryResponse_clears_without_callbacks_witness :
    handleConfirmationResponse (some parseCommand)
        ⟨some ⟨"attack", "こうげき", 0⟩, true⟩ "もう一度"
      = .ok (true, ⟨none, false⟩, [.speak "もう一度お聞かせください"]) :=
  (retryResponse_clears_without_callbacks (some parseCommand)
      ⟨some ⟨"attack", "こうげき", 0⟩, true⟩ ⟨"attack", "こうげき", 0⟩ "もう一度"
      rfl (by decide) (by decide) (by decide)).1

/-- Counterexample to claim C6 as stated: answering a concrete pending
confirmation with the retry phrase 「もう一度」 emits only the please-repeat
prompt; the emitted event trace contains zero `onRejected` invocations, so the
rejection callback is NOT invoked. -/
theorem retryResponse_rejection_callback_not_invoked :
    handleConfirmationResponse (some parseCommand)
        ⟨some ⟨"defend", "ぼうぎょ", 0⟩, true⟩ "もう一度やって"
      = .ok (true, ⟨none, false⟩, [.speak "もう一度お聞かせください"]) ∧
    countRejected [CEvent.speak "もう一度お聞かせください"] = 0 :=
  ⟨rfl, rfl⟩

/-- Claim C7: persisting a learning state and reloading the stored record
reproduces the same candidate-set map and learned-pattern map, given the
invariants every JS-reachable state has (unique map keys, duplicate-free
sets); the reload is in fact the identity, so membership AND order are
preserved. -/
theorem saveLoad_roundtrip (st : LearningState) (h : WFLearning st) :
    loadUserLearning (saveUserLearning st) = st := by
  obtain ⟨h1, h2, h3⟩ := h
  obtain ⟨up, lc⟩ := st
  unfold loadUserLearning saveUserLearning
  simp only [LearningState.mk.injEq]
  constructor
  · have e1 : (up.map (fun e => (e.1, e.2))).map (fun e => (e.1, setFromList e.2))
        = up.map (fun e => (e.1, setFromList e.2)) := by
      simp
    rw [e1]
    have e2 : up.map (fun e => (e.1, setFromList e.2)) = up := by
      have e3 : up.map (fun e => (e.1, setFromList e.2)) = up.map id := by
        apply List.map_congr_left
        intro a ha
        rw [setFromList_nodup (h2 a ha)]
        rfl
      simpa using e3
    rw [e2]
    exact mapFromEntries_nodup h1
  · exact mapFromEntries_nodup h3

/-- Witness for the C7 round-trip theorem on a concrete learning state. -/
theorem saveLoad_roundtrip_witness :
    WFLearning ⟨[("attack", ["とつげき", "いけ"])], [("とつげき", "attack")]⟩ ∧
    loadUserLearning (saveUserLearning
        ⟨[("attack", ["とつげき", "いけ"])], [("とつげき", "attack")]⟩)
      = ⟨[("attack", ["とつげき", "いけ"])], [("とつげき", "attack")]⟩ :=
  ⟨by decide, saveLoad_roundtrip ⟨[("attack", ["とつげき", "いけ"])], [("とつげき", "attack")]⟩
      (by decide)⟩

/-- Claim C8 (amended): within one Whisper engine instance at most one
transcription is ever in flight (the queue drain only runs when
`isProcessing` is false), BUT an utterance whose segmentation ends while a
transcription is in progress is dropped by the `isProcessing` guard of
`processAudioData` — the engine state does not change at all, so the
utterance is neither queued nor ever transcribed. -/
theorem whisper_serialized_but_overlap_dropped (es : List WEvent) (st : WEngine)
    (u : Nat) (h : st.isProcessing = true) :
    (wrun winit es).inFlight.length ≤ 1 ∧ wstep st (.speechEnd u) = st :=
  ⟨(winv_run es).1, by simp [wstep, h]⟩

/-- Witness for the amended C8 theorem: a concrete trace and a concrete
busy engine state. -/
theorem whisper_serialized_but_overlap_dropped_witness :
    (wrun winit [.speechEnd 1, .transcribeDone]).inFlight.length ≤ 1 ∧
    wstep ⟨true, true, [], [1], []⟩ (.speechEnd 2) = ⟨true, true, [], [1], []⟩ :=
  whisper_serialized_but_overlap_dropped [.speechEnd 1, .transcribeDone]
    ⟨true, true, [], [1], []⟩ 2 rfl

/-- Counterexample to claim C8 as stated: utterance 2 ends while utterance 1
is being transcribed; the engine state is left completely unchanged (nothing
is appended to the FIFO queue), and after the transcription completes only
utterance 1 has been transcribed while the queue is empty — utterance 2 is
never transcribed. -/
theorem whisper_overlap_not_queued :
    wrun winit [.speechEnd 1, .speechEnd 2] = wrun winit [.speechEnd 1] ∧
    (wrun winit [.speechEnd 1, .speechEnd 2, .transcribeDone]).transcribed = [1] ∧
    (wrun winit [.speechEnd 1, .speechEnd 2, .transcribeDone]).processingQueue = [] :=
  ⟨by decide, by decide, by decide⟩

theorem mem_filter_ne {s : List String} {p op : String} (h : p ≠ op) :
    p ∈ s.filter (fun x => !(x == op)) ↔ p ∈ s := by
  simp [List.mem_filter, h]

theorem not_mem_filter_self {s : List String} {op : String} :
    op ∉ s.filter (fun x => !(x == op)) := by
  simp [List.mem_filter]

/-- Claim C10: `addCorrectionPattern` deletes the normalized old text from the
candidate set of EVERY command (the only survivor being its re-addition when
it coincides with the normalized new text under the new command); every other
candidate-set membership is unchanged; the normalized new text is recorded
under the new command; and every learned-pattern entry at a key other than the
normalized new text is unchanged. -/
theorem addCorrectionPattern_frame (st : LearningState)
    (originalText wrongCommand correctedText correctCommand : String) :
    (∀ c : String,
      ¬(c = correctCommand ∧ trimStr (lowerStr originalText) = trimStr (lowerStr correctedText)) →
      trimStr (lowerStr originalText) ∉
        (List.lookup c (addCorrectionPattern st originalText wrongCommand
          correctedText correctCommand).userPatterns).getD []) ∧
    (∀ c p : String, p ≠ trimStr (lowerStr originalText) →
      ¬(c = correctCommand ∧ p = trimStr (lowerStr correctedText)) →
      (p ∈ (List.lookup c (addCorrectionPattern st originalText wrongCommand
          correctedText correctCommand).userPatterns).getD []
        ↔ p ∈ (List.lookup c st.userPatterns).getD [])) ∧
    (trimStr (lowerStr correctedText) ∈
      (List.lookup correctCommand (addCorrectionPattern st originalText wrongCommand
        correctedText correctCommand).userPatterns).getD []) ∧
    (∀ k : String, k ≠ trimStr (lowerStr correctedText) →
      List.lookup k (addCorrectionPattern st originalText wrongCommand
          correctedText correctCommand).learnedCommands
        = List.lookup k st.learnedCommands) := by
  set op := trimStr (lowerStr originalText) with hop
  set np := trimStr (lowerStr correctedText) with hnp
  set up2 := st.userPatterns.map (fun e => (e.1, e.2.filter (fun p => !(p == op)))) with hup2
  set pats := (List.lookup correctCommand up2).getD [] with hpats
  have hstate : addCorrectionPattern st originalText wrongCommand correctedText correctCommand
      = ⟨mapSet up2 correctCommand (setAdd pats np),
         if 3 ≤ (setAdd pats np).length then mapSet st.learnedCommands np correctCommand
         else st.learnedCommands⟩ := rfl
  have hfiltered : ∀ c : String,
      (List.lookup c up2).getD []
        = ((List.lookup c st.userPatterns).getD []).filter (fun p => !(p == op)) := by
    intro c
    rw [hup2, lookup_map_val]
    cases List.lookup c st.userPatterns <;> simp
  refine ⟨?_, ?_, ?_, ?_⟩
  · intro c hc
    rw [hstate]
    by_cases hcc : c = correctCommand
    · subst hcc
      have hopnp : op ≠ np := fun heq => hc ⟨rfl, heq⟩
      rw [lookup_mapSet_self]
      simp only [Option.getD_some]
      rw [mem_setAdd]
      rintro (hmem | heq)
      · rw [hpats, hfiltered] at hmem
        exact not_mem_filter_self hmem
      · exact hopnp heq
    · rw [lookup_mapSet_ne _ _ hcc, hfiltered]
      exact not_mem_filter_self
  · intro c p hpo hcnp
    rw [hstate]
    by_cases hcc : c = correctCommand
    · subst hcc
      have hpnp : p ≠ np := fun hpe => hcnp ⟨rfl, hpe⟩
      rw [lookup_mapSet_self]
      simp only [Option.getD_some]
      rw [mem_setAdd]
      constructor
      · rintro (hmem | heq)
        · rw [hpats, hfiltered] at hmem
          exact (mem_filter_ne hpo).mp hmem
        · exact absurd heq hpnp
      · intro hmem
        exact Or.inl (by rw [hpats, hfiltered]; exact (mem_filter_ne hpo).mpr hmem)
    · rw [lookup_mapSet_ne _ _ hcc, hfiltered]
      exact mem_filter_ne hpo
  · rw [hstate]
    rw [lookup_mapSet_self]
    simp only [Option.getD_some]
    exact mem_setAdd.mpr (Or.inr rfl)
  · intro k hk
    rw [hstate]
    by_cases hlen : 3 ≤ (setAdd pats np).length
    · simp only [hlen, if_true]
      exact lookup_mapSet_ne _ _ hk
    · simp only [hlen, if_false]

/-- Witness for the C10 frame theorem on a concrete learning state and
correction. -/
theorem addCorrectionPattern_frame_witness :
    (trimStr (lowerStr "ふるい") ∉
      (List.lookup "attack" (addCorrectionPattern
        ⟨[("attack", ["ふるい", "のこる"]), ("defend", ["ふるい"])], [("まなぶ", "attack")]⟩
        "ふるい" "attack" "あたらしい" "defend").userPatterns).getD []) ∧
    ("のこる" ∈ (List.lookup "attack" (addCorrectionPattern
        ⟨[("attack", ["ふるい", "のこる"]), ("defend", ["ふるい"])], [("まなぶ", "attack")]⟩
        "ふるい" "attack" "あたらしい" "defend").userPatterns).getD []
      ↔ "のこる" ∈ (List.lookup "attack"
        (⟨[("attack", ["ふるい", "のこる"]), ("defend", ["ふるい"])], [("まなぶ", "attack")]⟩
          : LearningState).userPatterns).getD []) ∧
    List.lookup "まなぶ" (addCorrectionPattern
        ⟨[("attack", ["ふるい", "のこる"]), ("defend", ["ふるい"])], [("まなぶ", "attack")]⟩
        "ふるい" "attack" "あたらしい" "defend").learnedCommands
      = List.lookup "まなぶ"
        (⟨[("attack", ["ふるい", "のこる"]), ("defend", ["ふるい"])], [("まなぶ", "attack")]⟩
          : LearningState).learnedCommands :=
  ⟨(addCorrectionPattern_frame
      ⟨[("attack", ["ふるい", "のこる"]), ("defend", ["ふるい"])], [("まなぶ", "attack")]⟩
      "ふるい" "attack" "あたらしい" "defend").1 "attack" (by decide),
   (addCorrectionPattern_frame
      ⟨[("attack", ["ふるい", "のこる"]), ("defend", ["ふるい"])], [("まなぶ", "attack")]⟩
      "ふるい" "attack" "あたらしい" "defend").2.1 "attack" "のこる" (by decide) (by decide),
   (addCorrectionPattern_frame
      ⟨[("attack", ["ふるい", "のこる"]), ("defend", ["ふるい"])], [("まなぶ", "attack")]⟩
      "ふるい" "attack" "あたらしい" "defend").2.2.2 "まなぶ" (by decide)⟩

end VoiceCommander
